import Mathlib

/-!
Verification of the DocCheck docstring-test engine
(`doccheck/doccheck.py`).

Strings are modelled as lists of characters.  The shallow embedding
translates, from the source:

* `safe_Splitlines_Preserving_Parentheses` (line reflow),
* `load_Classes_Docstrings` (per-declaration line accumulation),
* the example-tag regex search, payload extraction (`doc.split(":")[-1]`),
  and eval-environment construction,
* `load_Classes_Examples` (the example build phase),
* `run_Classes_Tests` (the test phase) and `run` (the orchestrator).

Python's `eval` is treated as an opaque oracle: a parameter mapping a
payload string and an environment to either a raised exception or a
returned value.  Value contents only matter through truthiness, stored
example objects, and identity of the class object, which the `PyVal`
type captures.
-/

abbrev Str := List Char

/-- Whitespace characters recognised by Python's no-argument `str.split`
(`str.isspace`).  The full Unicode space set of CPython is included. -/
def pyIsSpace (c : Char) : Bool :=
  c = ' ' || c = '\t' || c = '\n' || c = '\r' || c = '\x0b' || c = '\x0c' ||
  c = '\x1c' || c = '\x1d' || c = '\x1e' || c = '\x1f' || c = '\x85' ||
  c = '\xa0' || c = '\u1680' || c = '\u2000' || c = '\u2001' || c = '\u2002' ||
  c = '\u2003' || c = '\u2004' || c = '\u2005' || c = '\u2006' || c = '\u2007' ||
  c = '\u2008' || c = '\u2009' || c = '\u200a' || c = '\u2028' || c = '\u2029' ||
  c = '\u202f' || c = '\u205f' || c = '\u3000'

/-- Line-boundary characters of Python's `str.splitlines`. -/
def isLineBreak (c : Char) : Bool :=
  c = '\n' || c = '\r' || c = '\x0b' || c = '\x0c' ||
  c = '\x1c' || c = '\x1d' || c = '\x1e' || c = '\x85' ||
  c = '\u2028' || c = '\u2029'

/-- Worker for `pySplitlines`; `acc` holds the current line reversed,
and `pend` records that the previous character was a `'\r'` whose line
was already emitted, so one directly following `'\n'` is consumed as
part of the same `'\r\n'` boundary. -/
def splitlinesCore (pend : Bool) (acc : Str) : Str → List Str
  | [] => if acc = [] then [] else [acc.reverse]
  | c :: rest =>
    if pend ∧ c = '\n' then splitlinesCore false acc rest
    else if isLineBreak c then
      acc.reverse :: splitlinesCore (decide (c = '\r')) [] rest
    else splitlinesCore false (c :: acc) rest

/-- Python `str.splitlines`: split at line boundaries (`'\r\n'` being
one boundary), no trailing empty line for a trailing boundary, empty
string gives no lines. -/
def pySplitlines (s : Str) : List Str :=
  splitlinesCore false [] s

/-- Worker for the no-argument `str.split`; `cur` holds the current
word reversed. -/
def pySplitWsCore (cur : Str) : Str → List Str
  | [] => if cur = [] then [] else [cur.reverse]
  | c :: rest =>
    if pyIsSpace c then
      if cur = [] then pySplitWsCore [] rest
      else cur.reverse :: pySplitWsCore [] rest
    else pySplitWsCore (c :: cur) rest

/-- Python no-argument `str.split`: maximal runs of non-whitespace. -/
def pySplitWs (s : Str) : List Str := pySplitWsCore [] s

/-- `' '.join ws`. -/
def joinSpace : List Str → Str
  | [] => []
  | [w] => w
  | w :: ws => w ++ ' ' :: joinSpace ws

/-- `' '.join(raw_line.split())`: trim and collapse internal whitespace. -/
def collapseWs (s : Str) : Str := joinSpace (pySplitWs s)

/-- The three clamped nesting counters of the merge pass. -/
structure Depths where
  paren : Nat
  bracket : Nat
  brace : Nat
  deriving DecidableEq

/-- One character of the merge pass of
`safe_Splitlines_Preserving_Parentheses`: update the counters (Nat
subtraction models the `max(0, d - 1)` clamp) and emit the output
character, turning a newline into a space while any counter is open. -/
def mergeStep (d : Depths) (ch : Char) : Depths × Char :=
  if ch = '(' then ({ d with paren := d.paren + 1 }, ch)
  else if ch = ')' then ({ d with paren := d.paren - 1 }, ch)
  else if ch = '[' then ({ d with bracket := d.bracket + 1 }, ch)
  else if ch = ']' then ({ d with bracket := d.bracket - 1 }, ch)
  else if ch = '{' then ({ d with brace := d.brace + 1 }, ch)
  else if ch = '}' then ({ d with brace := d.brace - 1 }, ch)
  else if ch = '\n' ∧ (0 < d.paren ∨ 0 < d.bracket ∨ 0 < d.brace) then
    (d, ' ')
  else (d, ch)

/-- The character walk of the merge pass. -/
def mergeChars (d : Depths) : Str → Str
  | [] => []
  | ch :: rest => (mergeStep d ch).2 :: mergeChars (mergeStep d ch).1 rest

/-- Folding the counter updates over a string. -/
def stepFold (d : Depths) (s : Str) : Depths :=
  s.foldl (fun d c => (mergeStep d c).1) d

/-- `safe_Splitlines_Preserving_Parentheses`: merge newlines inside any
open bracket group, split into lines, collapse whitespace, drop empties. -/
def safe_Splitlines_Preserving_Parentheses (text : Str) : List Str :=
  ((pySplitlines (mergeChars ⟨0, 0, 0⟩ text)).map collapseWs).filter
    (fun l => decide (l ≠ []))

/-- Python single-character `str.split(sep)`: empty pieces are kept and
the result is always non-empty. -/
def pySplitOn (sep : Char) : Str → List Str
  | [] => [[]]
  | c :: rest =>
    match pySplitOn sep rest with
    | [] => []
    | h :: t => if c = sep then [] :: h :: t else (c :: h) :: t

/-- `doc.split(":")[-1]`: the payload taken by the source from a tagged
line. -/
def payloadOf (doc : Str) : Str := (pySplitOn ':' doc).getLastD []

/-- Substring test, Python's `needle in haystack` for strings. -/
def startsWithStr : Str → Str → Bool
  | [], _ => true
  | _ :: _, [] => false
  | p :: ps, c :: cs => p == c && startsWithStr ps cs

/-- `needle in haystack` on strings: containment at some position. -/
def pyIn (needle : Str) : Str → Bool
  | [] => startsWithStr needle []
  | s@(_ :: rest) => startsWithStr needle s || pyIn needle rest

def exampleMarker : Str := ">>example".toList
def testMarker : Str := ">>test:".toList
def errorMarker : Str := ">>error:".toList

/-- Numeric value of a digit string. -/
def digitsToNat (ds : Str) : Nat :=
  ds.foldl (fun n c => n * 10 + (c.toNat - '0'.toNat)) 0

/-- Match of the regex `>>example(\d+):` anchored at the head of `s`:
the literal marker, a maximal non-empty ASCII digit run, then a colon.
(The Python regex also admits non-ASCII decimal digits; those are not
modelled.)  Returns the integer value of the digit group. -/
def matchExampleHere (s : Str) : Option Nat :=
  if startsWithStr exampleMarker s then
    let rest := s.drop exampleMarker.length
    let ds := rest.takeWhile Char.isDigit
    match rest.dropWhile Char.isDigit with
    | ':' :: _ => if ds = [] then none else some (digitsToNat ds)
    | _ => none
  else none

/-- `re.search(r">>example(\d+):", doc)`: leftmost match. -/
def reSearchExample : Str → Option Nat
  | [] => none
  | s@(_ :: rest) =>
    match matchExampleHere s with
    | some n => some n
    | none => reSearchExample rest

/-- Runtime values, as far as the engine observes them: the class object
bound into an evaluation scope, or opaque data with a truthiness. -/
inductive PyVal where
  | classV (name : Str)
  | natV (n : Nat)
  | boolV (b : Bool)
  deriving DecidableEq

/-- Python truthiness of a `PyVal`. -/
def truthy : PyVal → Bool
  | .classV _ => true
  | .natV n => decide (n ≠ 0)
  | .boolV b => b

/-- Outcome of one `eval` call: an exception or a returned value. -/
inductive EvalRes where
  | raises
  | returns (v : PyVal)
  deriving DecidableEq

/-- An environment is a Python dict: insertion-ordered, unique keys. -/
abbrev Env := List (Str × PyVal)

/-- Python dict assignment `d[k] = v`: overwrite in place if the key is
present, append otherwise. -/
def dictInsert (k : Str) (v : PyVal) (d : Env) : Env :=
  if d.any (fun p => p.1 == k) then
    d.map (fun p => if p.1 = k then (k, v) else p)
  else d ++ [(k, v)]

/-- Python dict lookup. -/
def dictGet (k : Str) : Env → Option PyVal
  | [] => none
  | p :: rest => if p.1 = k then some p.2 else dictGet k rest

def clsKey : Str := "cls".toList

/-- `{"cls": class_instance, class_instance.__name__: class_instance,
**module_globals}`: dict-literal evaluation order, so the unpacked
module globals are inserted last. -/
def mkEvalEnv (name : Str) (mg : Env) : Env :=
  mg.foldl (fun d p => dictInsert p.1 p.2 d)
    (dictInsert name (PyVal.classV name) (dictInsert clsKey (PyVal.classV name) []))

/-- A class as the test phases see it: its name, the `_docstrings` list
attached by `load_Classes_Docstrings`, and its module's globals
(`sys.modules[cls.__module__].__dict__`, empty on the `KeyError`
fallback). -/
structure RunClass where
  name : Str
  docstrings : List Str
  globals : Env
  deriving DecidableEq

/-- The opaque Python `eval`: payload and environment to outcome. -/
abbrev Eval := Str → Env → EvalRes

/-- Observable steps of a run, mirroring the per-line prints of the
source: an example evaluation (with its success flag), the `setattr`
storing a built example, and each test/error line with its pass flag. -/
inductive Event where
  | exampleEval (cls : Str) (id : Nat) (payload : Str) (ok : Bool)
  | exampleStored (cls : Str) (id : Nat)
  | testEval (cls : Str) (payload : Str) (passed : Bool)
  | errorEval (cls : Str) (payload : Str) (passed : Bool)
  deriving DecidableEq

/-- How `load_Classes_Examples` can end: `sys.exit(1)` on an example tag
whose regex does not match, `return False` when an example expression
raises, or `return True`. -/
inductive BuildOutcome where
  | fatal
  | failed
  | ok
  deriving DecidableEq

/-- The per-class line loop of `load_Classes_Examples`. -/
def loadExamplesLines (ev : Eval) (c : RunClass) : List Str → BuildOutcome × List Event
  | [] => (.ok, [])
  | d :: rest =>
    if pyIn exampleMarker d then
      match reSearchExample d with
      | none => (.fatal, [])
      | some id =>
        match ev (payloadOf d) (mkEvalEnv c.name c.globals) with
        | .raises => (.failed, [.exampleEval c.name id (payloadOf d) false])
        | .returns _ =>
          ((loadExamplesLines ev c rest).1,
           .exampleEval c.name id (payloadOf d) true ::
             .exampleStored c.name id :: (loadExamplesLines ev c rest).2)
    else loadExamplesLines ev c rest

/-- `load_Classes_Examples`: the loop over all classes; a fatal exit or
a `return False` in one class ends the whole phase. -/
def load_Classes_Examples (ev : Eval) : List RunClass → BuildOutcome × List Event
  | [] => (.ok, [])
  | c :: cs =>
    match (loadExamplesLines ev c c.docstrings).1 with
    | .ok => ((load_Classes_Examples ev cs).1,
              (loadExamplesLines ev c c.docstrings).2 ++ (load_Classes_Examples ev cs).2)
    | o => (o, (loadExamplesLines ev c c.docstrings).2)

/-- The accumulator of `run_Classes_Tests`: `result` (truthiness of the
Python value) and `test_processed`. -/
structure TestState where
  result : Bool
  processed : Nat
  deriving DecidableEq

/-- One docstring line of the test phase.  A line carrying neither
marker is skipped; otherwise the counter is bumped and the branch for
`>>test:` (checked first) or `>>error:` runs.  The error branch sets
`result` to the literal outcome, exactly as the source does. -/
def testLineStep (ev : Eval) (c : RunClass) (st : TestState) (d : Str) :
    TestState × List Event :=
  if pyIn testMarker d || pyIn errorMarker d then
    let st1 : TestState := ⟨st.result, st.processed + 1⟩
    if pyIn testMarker d then
      match ev (payloadOf d) (mkEvalEnv c.name c.globals) with
      | .returns v => (⟨st1.result && truthy v, st1.processed⟩,
                       [.testEval c.name (payloadOf d) (truthy v)])
      | .raises => (⟨false, st1.processed⟩, [.testEval c.name (payloadOf d) false])
    else
      match ev (payloadOf d) (mkEvalEnv c.name c.globals) with
      | .returns _ => (⟨false, st1.processed⟩, [.errorEval c.name (payloadOf d) false])
      | .raises => (⟨true, st1.processed⟩, [.errorEval c.name (payloadOf d) true])
  else (st, [])

/-- The line loop of `run_Classes_Tests` for one class. -/
def testLinesFold (ev : Eval) (c : RunClass) (st : TestState) : List Str → TestState × List Event
  | [] => (st, [])
  | d :: rest =>
    ((testLinesFold ev c (testLineStep ev c st d).1 rest).1,
     (testLineStep ev c st d).2 ++ (testLinesFold ev c (testLineStep ev c st d).1 rest).2)

/-- The class loop of `run_Classes_Tests`. -/
def testClassesFold (ev : Eval) (st : TestState) : List RunClass → TestState × List Event
  | [] => (st, [])
  | c :: cs =>
    ((testClassesFold ev (testLinesFold ev c st c.docstrings).1 cs).1,
     (testLinesFold ev c st c.docstrings).2 ++
       (testClassesFold ev (testLinesFold ev c st c.docstrings).1 cs).2)

/-- `run_Classes_Tests`: verdict, `test_processed`, and the trace.  With
zero processed lines the verdict is forced to failure. -/
def run_Classes_Tests (ev : Eval) (classes : List RunClass) : Bool × Nat × List Event :=
  ((if 0 < (testClassesFold ev ⟨true, 0⟩ classes).1.processed
    then (testClassesFold ev ⟨true, 0⟩ classes).1.result else false),
   (testClassesFold ev ⟨true, 0⟩ classes).1.processed,
   (testClassesFold ev ⟨true, 0⟩ classes).2)

/-- How a whole run can end: the `sys.exit(1)` inside the example phase,
or a returned boolean verdict. -/
inductive RunOutcome where
  | fatalExit
  | verdict (allPassed : Bool)
  deriving DecidableEq

/-- `DocCheck.run` from the example phase on: build all examples, abort
on a fatal tag error or a failed build, otherwise run the tests. -/
def runDocCheck (ev : Eval) (classes : List RunClass) : RunOutcome × List Event :=
  match (load_Classes_Examples ev classes).1 with
  | .fatal => (.fatalExit, (load_Classes_Examples ev classes).2)
  | .failed => (.verdict false, (load_Classes_Examples ev classes).2)
  | .ok => (.verdict (run_Classes_Tests ev classes).1,
            (load_Classes_Examples ev classes).2 ++ (run_Classes_Tests ev classes).2.2)

/-- The member categories `load_Classes_Docstrings` distinguishes:
`inspect.isfunction`, `classmethod`/`staticmethod` wrappers (unwrapped
through `__func__`), and anything else (skipped). -/
inductive MemberKind where
  | function
  | classmethodW
  | staticmethodW
  | other
  deriving DecidableEq

/-- A class member as seen by `inspect.getmembers`: its attribute name,
category, and the `inspect.getdoc` of the (unwrapped) function. -/
structure Member where
  name : Str
  kind : MemberKind
  doc : Option Str
  deriving DecidableEq

/-- A class before docstring extraction: `inspect.getdoc` of the class
itself and its member list. -/
structure RawClass where
  name : Str
  doc : Option Str
  members : List Member

/-- Lexicographic comparison by code point, Python's string `<=`. -/
def strLe : Str → Str → Bool
  | [], _ => true
  | _ :: _, [] => false
  | a :: xs, b :: ys =>
    if a.toNat < b.toNat then true
    else if b.toNat < a.toNat then false
    else strLe xs ys

/-- Name order on members, the order `inspect.getmembers` sorts by. -/
def memberLe (a b : Member) : Prop := strLe a.name b.name = true

instance : DecidableRel memberLe := fun a b =>
  inferInstanceAs (Decidable (strLe a.name b.name = true))

/-- `inspect.getmembers(class_instance)`: the members sorted by name. -/
def getmembersOf (c : RawClass) : List Member :=
  c.members.insertionSort memberLe

/-- The `if doc:` guards around `inspect.getdoc` results: absent or
empty documentation contributes nothing, otherwise it is reflowed. -/
def docLinesOfDoc : Option Str → List Str
  | none => []
  | some d => if d = [] then [] else safe_Splitlines_Preserving_Parentheses d

/-- Lines contributed by one member: only functions and
`classmethod`/`staticmethod` wrappers with documentation count. -/
def memberDocLines (m : Member) : List Str :=
  match m.kind with
  | .other => []
  | _ => docLinesOfDoc m.doc

/-- The `tmp_list` built by `load_Classes_Docstrings` for one class:
start from the class documentation, then extend with each member's
lines in `getmembers` order. -/
def docstringsOfClass (c : RawClass) : List Str :=
  (getmembersOf c).foldl (fun acc m => acc ++ memberDocLines m) (docLinesOfDoc c.doc)

/-- `load_Classes_Docstrings` over the class list. -/
def load_Classes_Docstrings (cs : List RawClass) : List (List Str) :=
  cs.map docstringsOfClass

/-- Spec-side registry population (from the spec's words): the
declaration's own documentation reflowed, then each callable member's
documentation reflowed, appended in alphabetical member order. -/
def docstringsSpec (c : RawClass) : List Str :=
  docLinesOfDoc c.doc ++ ((getmembersOf c).map memberDocLines).flatten

/-- Spec-side clamped nesting counter (from the spec's words): one
counter per bracket pair, incremented at the opener, decremented but
clamped at zero at the closer. -/
def clampCount (op cl : Char) (s : Str) : Nat :=
  s.foldl (fun n c => if c = op then n + 1 else if c = cl then n - 1 else n) 0

/-- Spec-side merge condition: at least one of the three counters of
the prefix is above zero. -/
def anyOpen (s : Str) : Bool :=
  decide (0 < clampCount '(' ')' s) || decide (0 < clampCount '[' ']' s) ||
  decide (0 < clampCount '{' '}' s)

/-- Spec-side payload (from the spec's words): everything after the
last colon on the line; the whole line when there is no colon. -/
def afterLastColon : Str → Str
  | [] => []
  | c :: rest =>
    if ':' ∈ rest then afterLastColon rest
    else if c = ':' then rest else c :: rest

/-- Everything after the first colon (for contrast with the source's
last-colon split); empty when there is no colon. -/
def afterFirstColon (s : Str) : Str :=
  (s.dropWhile (fun c => decide (c ≠ ':'))).drop 1

/-- Spec-side pass condition of a `>>test:` line: the evaluation in the
composed scope returns a truthy value; falsy values and exceptions
fail. -/
def testPassed (ev : Eval) (c : RunClass) (d : Str) : Bool :=
  match ev (payloadOf d) (mkEvalEnv c.name c.globals) with
  | .returns v => truthy v
  | .raises => false

/-- Spec-side pass condition of a `>>error:` line: the evaluation in
the composed scope raises. -/
def errorPassed (ev : Eval) (c : RunClass) (d : Str) : Bool :=
  match ev (payloadOf d) (mkEvalEnv c.name c.globals) with
  | .returns _ => false
  | .raises => true

/-- Number of docstring lines carrying a test or error marker. -/
def tagLineCount (cs : List RunClass) : Nat :=
  (cs.map (fun c =>
    (c.docstrings.filter (fun d => pyIn testMarker d || pyIn errorMarker d)).length)).sum

def isBuildEvent : Event → Bool
  | .exampleEval _ _ _ _ => true
  | .exampleStored _ _ => true
  | _ => false

def isTestEvent : Event → Bool
  | .testEval _ _ _ => true
  | .errorEval _ _ _ => true
  | _ => false

/-- A test-phase line recorded as failed (its `PASSED:` flag false). -/
def eventFailed : Event → Bool
  | .testEval _ _ p => !p
  | .errorEval _ _ p => !p
  | _ => false

/-- Accumulated count of failed test/error lines in a trace. -/
def failedCount (evs : List Event) : Nat := (evs.filter eventFailed).length

lemma pySplitOn_ne_nil (sep : Char) (s : Str) : pySplitOn sep s ≠ [] := by
  induction s with
  | nil => simp [pySplitOn]
  | cons c rest ih =>
    obtain ⟨a, t, h⟩ := List.exists_cons_of_ne_nil ih
    simp only [pySplitOn, h]
    split <;> simp

lemma pySplitOn_of_not_mem {sep : Char} {s : Str} (h : sep ∉ s) :
    pySplitOn sep s = [s] := by
  induction s with
  | nil => rfl
  | cons c rest ih =>
    have hc : c ≠ sep := fun hcs => h (hcs ▸ List.mem_cons_self c rest)
    have hr : sep ∉ rest := fun hm => h (List.mem_cons_of_mem c hm)
    simp [pySplitOn, ih hr, hc]

lemma mem_iff_pySplitOn_two_le (sep : Char) (s : Str) :
    sep ∈ s ↔ 2 ≤ (pySplitOn sep s).length := by
  induction s with
  | nil => simp [pySplitOn]
  | cons c rest ih =>
    obtain ⟨a, t, h⟩ := List.exists_cons_of_ne_nil (pySplitOn_ne_nil sep rest)
    rw [h] at ih
    simp only [pySplitOn, h]
    by_cases hc : c = sep
    · subst hc; simp
    · simp only [List.mem_cons, if_neg hc]
      constructor
      · rintro (rfl | hm)
        · exact absurd rfl hc
        · have := ih.1 hm; simp at this ⊢; omega
      · intro hlen
        refine Or.inr (ih.2 ?_)
        simp at hlen ⊢; omega

lemma getLastD_irrel {α : Type} : ∀ (t : List α) (a b : α), t ≠ [] →
    t.getLastD a = t.getLastD b
  | [], _, _, h => absurd rfl h
  | z :: zs, a, b, _ => by rw [List.getLastD_cons, List.getLastD_cons]

/-- The source's `doc.split(":")[-1]` is exactly the text after the
last colon (the whole line when there is no colon). -/
lemma payloadOf_eq_afterLastColon (s : Str) : payloadOf s = afterLastColon s := by
  induction s with
  | nil => rfl
  | cons c rest ih =>
    unfold payloadOf at ih ⊢
    obtain ⟨a, t, h⟩ := List.exists_cons_of_ne_nil (pySplitOn_ne_nil ':' rest)
    rw [h] at ih
    simp only [pySplitOn, h]
    by_cases hc : c = ':'
    · subst hc
      by_cases hm : ':' ∈ rest
      · simp [afterLastColon, hm, ← ih, List.getLastD_cons]
      · have h1 : pySplitOn ':' rest = [rest] := pySplitOn_of_not_mem hm
        rw [h1] at h
        cases h
        simp [afterLastColon, hm]
    · by_cases hm : ':' ∈ rest
      · have ht : t ≠ [] := by
          have h2 := (mem_iff_pySplitOn_two_le ':' rest).1 hm
          rw [h] at h2
          intro h0; subst h0; simp at h2
        simp only [afterLastColon, if_pos hm, if_neg hc, ← ih, List.getLastD_cons]
        exact getLastD_irrel t _ _ ht
      · have h1 : pySplitOn ':' rest = [rest] := pySplitOn_of_not_mem hm
        rw [h1] at h
        cases h
        simp [afterLastColon, hm, hc]

/-- Claim C4: for every logical line recognised as an example, test, or
error tag, the evaluated payload is exactly the substring after the
last colon on the line (the split is not at the first colon), so a line
whose expression contains its own colon is mis-split at that later
colon: on `>>test: d[1:2] == x` the payload is `2] == x`. -/
theorem C4_payload_is_after_last_colon :
    (∀ doc : Str, payloadOf doc = afterLastColon doc) ∧
    payloadOf (">>test: d[1:2] == x".toList) = ("2] == x".toList) ∧
    payloadOf (">>test: d[1:2] == x".toList) ≠
      afterFirstColon (">>test: d[1:2] == x".toList) :=
  ⟨payloadOf_eq_afterLastColon, by decide, by decide⟩

/-- A run with one failing test line followed by one passing error
line; evaluating payload ` 0` yields falsy `0`, anything else raises. -/
def c1Class : RunClass :=
  ⟨"C".toList, [">>test: 0".toList, ">>error: 1/0".toList], []⟩

def c1Eval : Eval := fun p _ =>
  if p = (" 0".toList) then .returns (.natV 0) else .raises

/-- Claim C1 evaluated at the failing input: the first line is a test
that fails (the trace records exactly one failed line and two processed
lines), yet the passing error line that follows resets the accumulator
(`result = True` in the source's error branch) and the run returns the
all-passed verdict `True`. -/
theorem C1_failed_test_overwritten_by_passing_error :
    (run_Classes_Tests c1Eval [c1Class]).1 = true ∧
    (run_Classes_Tests c1Eval [c1Class]).2.1 = 2 ∧
    failedCount (run_Classes_Tests c1Eval [c1Class]).2.2 = 1 := by
  refine ⟨?_, ?_, ?_⟩ <;> decide

lemma testLineStep_skip (ev : Eval) (c : RunClass) (st : TestState) (d : Str)
    (h : (pyIn testMarker d || pyIn errorMarker d) = false) :
    testLineStep ev c st d = (st, []) := by
  simp [testLineStep, h]

lemma testLineStep_processed (ev : Eval) (c : RunClass) (st : TestState) (d : Str) :
    (testLineStep ev c st d).1.processed =
      st.processed + (if (pyIn testMarker d || pyIn errorMarker d) = true then 1 else 0) := by
  unfold testLineStep
  cases h : (pyIn testMarker d || pyIn errorMarker d) <;>
    cases hT : pyIn testMarker d <;>
      cases hev : ev (payloadOf d) (mkEvalEnv c.name c.globals) <;>
        simp_all

lemma testLinesFold_processed (ev : Eval) (c : RunClass) :
    ∀ (ds : List Str) (st : TestState),
      (testLinesFold ev c st ds).1.processed =
        st.processed +
          (ds.filter (fun d => pyIn testMarker d || pyIn errorMarker d)).length
  | [], st => by simp [testLinesFold]
  | d :: rest, st => by
    simp only [testLinesFold, List.filter_cons]
    rw [testLinesFold_processed ev c rest, testLineStep_processed]
    cases h : (pyIn testMarker d || pyIn errorMarker d) <;> simp [h] <;> omega

lemma testClassesFold_processed (ev : Eval) :
    ∀ (cs : List RunClass) (st : TestState),
      (testClassesFold ev st cs).1.processed = st.processed + tagLineCount cs
  | [], st => by simp [testClassesFold, tagLineCount]
  | c :: cs, st => by
    simp only [testClassesFold]
    rw [testClassesFold_processed ev cs, testLinesFold_processed]
    simp [tagLineCount]
    omega

/-- Claim C6: a `>>test:` line evaluates its payload in the composed
scope; it is recorded as passed exactly when the result is truthy (a
falsy value or an exception is recorded as failed, via the same
per-line flag), the accumulator takes the conjunction, and
`test_processed` counts every test/error line exactly once, whatever
the outcomes. -/
theorem C6_test_line_truthiness_and_counter :
    (∀ (ev : Eval) (c : RunClass) (st : TestState) (d : Str),
      pyIn testMarker d = true →
      testLineStep ev c st d =
        (⟨st.result && testPassed ev c d, st.processed + 1⟩,
         [Event.testEval c.name (payloadOf d) (testPassed ev c d)])) ∧
    (∀ (ev : Eval) (classes : List RunClass),
      (run_Classes_Tests ev classes).2.1 = tagLineCount classes) := by
  constructor
  · intro ev c st d h
    unfold testLineStep testPassed
    cases hev : ev (payloadOf d) (mkEvalEnv c.name c.globals) <;> simp [h, hev]
  · intro ev classes
    show (testClassesFold ev ⟨true, 0⟩ classes).1.processed = tagLineCount classes
    rw [testClassesFold_processed]
    simp

def evAllTrue : Eval := fun _ _ => .returns (.natV 1)

def clsPlain : RunClass := ⟨"C".toList, [], []⟩

theorem C6_test_line_truthiness_and_counter_witness :
    pyIn testMarker (">>test: cls".toList) = true ∧
    testLineStep evAllTrue clsPlain ⟨true, 0⟩ (">>test: cls".toList) =
      (⟨true && testPassed evAllTrue clsPlain (">>test: cls".toList), 0 + 1⟩,
       [Event.testEval clsPlain.name (payloadOf (">>test: cls".toList))
          (testPassed evAllTrue clsPlain (">>test: cls".toList))]) :=
  ⟨by decide,
   C6_test_line_truthiness_and_counter.1 evAllTrue clsPlain ⟨true, 0⟩
     (">>test: cls".toList) (by decide)⟩

lemma testLineStep_events_length (ev : Eval) (c : RunClass) (st : TestState) (d : Str) :
    (testLineStep ev c st d).2.length =
      (if (pyIn testMarker d || pyIn errorMarker d) = true then 1 else 0) := by
  unfold testLineStep
  cases h : (pyIn testMarker d || pyIn errorMarker d) <;>
    cases hT : pyIn testMarker d <;>
      cases hev : ev (payloadOf d) (mkEvalEnv c.name c.globals) <;>
        simp_all

lemma testLinesFold_events_length (ev : Eval) (c : RunClass) :
    ∀ (ds : List Str) (st : TestState),
      (testLinesFold ev c st ds).2.length =
        (ds.filter (fun d => pyIn testMarker d || pyIn errorMarker d)).length
  | [], st => by simp [testLinesFold]
  | d :: rest, st => by
    simp only [testLinesFold, List.filter_cons, List.length_append]
    rw [testLinesFold_events_length ev c rest, testLineStep_events_length]
    cases h : (pyIn testMarker d || pyIn errorMarker d) <;> simp [h] <;> omega

lemma testClassesFold_events_length (ev : Eval) :
    ∀ (cs : List RunClass) (st : TestState),
      (testClassesFold ev st cs).2.length = tagLineCount cs
  | [], _ => by simp [testClassesFold, tagLineCount]
  | c :: cs, st => by
    simp only [testClassesFold, List.length_append]
    rw [testClassesFold_events_length ev cs, testLinesFold_events_length]
    simp [tagLineCount]

/-- Claim C7: a `>>error:` line (one not also carrying the test marker,
which the source checks first) evaluates its payload in the composed
scope and is recorded as passed exactly when the evaluation raises;
completing without raising is recorded as failed; in both cases the
loop continues, bumping the processed counter, and every processed
line leaves exactly one record in the trace. -/
theorem C7_error_line_pass_iff_raises :
    (∀ (ev : Eval) (c : RunClass) (st : TestState) (d : Str),
      pyIn testMarker d = false → pyIn errorMarker d = true →
      testLineStep ev c st d =
        (⟨errorPassed ev c d, st.processed + 1⟩,
         [Event.errorEval c.name (payloadOf d) (errorPassed ev c d)])) ∧
    (∀ (ev : Eval) (classes : List RunClass),
      (run_Classes_Tests ev classes).2.2.length = tagLineCount classes) := by
  constructor
  · intro ev c st d hT hE
    unfold testLineStep errorPassed
    cases hev : ev (payloadOf d) (mkEvalEnv c.name c.globals) <;> simp [hT, hE, hev]
  · intro ev classes
    show (testClassesFold ev ⟨true, 0⟩ classes).2.length = tagLineCount classes
    rw [testClassesFold_events_length]

def evAllRaise : Eval := fun _ _ => .raises

theorem C7_error_line_pass_iff_raises_witness :
    pyIn testMarker (">>error: 1/0".toList) = false ∧
    pyIn errorMarker (">>error: 1/0".toList) = true ∧
    testLineStep evAllRaise clsPlain ⟨true, 0⟩ (">>error: 1/0".toList) =
      (⟨errorPassed evAllRaise clsPlain (">>error: 1/0".toList), 0 + 1⟩,
       [Event.errorEval clsPlain.name (payloadOf (">>error: 1/0".toList))
          (errorPassed evAllRaise clsPlain (">>error: 1/0".toList))]) :=
  ⟨by decide, by decide,
   C7_error_line_pass_iff_raises.1 evAllRaise clsPlain ⟨true, 0⟩
     (">>error: 1/0".toList) (by decide) (by decide)⟩

lemma dictGet_eq_none_of_not_key {k : Str} {d : Env}
    (h : ∀ p ∈ d, p.1 ≠ k) : dictGet k d = none := by
  induction d with
  | nil => rfl
  | cons p rest ih =>
    have hp : p.1 ≠ k := h p (List.mem_cons_self p rest)
    simp only [dictGet, if_neg hp]
    exact ih (fun q hq => h q (List.mem_cons_of_mem p hq))

lemma dictGet_map_update (k k' : Str) (v : PyVal) (d : Env) :
    dictGet k (d.map (fun p => if p.1 = k' then (k', v) else p)) =
      if k = k' then (if d.any (fun p => p.1 == k') then some v else none)
      else dictGet k d := by
  induction d with
  | nil => by_cases hk : k = k' <;> simp [dictGet, hk]
  | cons p rest ih =>
    simp only [List.map_cons, List.any_cons]
    by_cases hp : p.1 = k'
    · by_cases hk : k = k'
      · subst hk
        simp [dictGet, hp, if_pos hp, eq_comm]
      · have hk2 : ¬ (k' = k) := fun hh => hk hh.symm
        have hpk : ¬ (p.1 = k) := by rw [hp]; exact hk2
        rw [if_pos hp]
        simp only [dictGet, if_neg hk2, ih, if_neg hk, if_neg hpk]
    · by_cases hpk : p.1 = k
      · have hk : ¬ k = k' := fun h => hp (hpk.trans h)
        simp [dictGet, hp, hpk, hk]
      · simp only [if_neg hp, dictGet, if_neg hpk, ih]
        by_cases hk : k = k'
        · have hbeq : (p.1 == k') = false := by simp [hp]
          rw [if_pos hk, if_pos hk]
          simp only [hbeq, Bool.false_or]
        · rw [if_neg hk, if_neg hk]

lemma dictGet_append (k : Str) (d1 d2 : Env) :
    dictGet k (d1 ++ d2) =
      match dictGet k d1 with
      | some v => some v
      | none => dictGet k d2 := by
  induction d1 with
  | nil => simp [dictGet]
  | cons p rest ih =>
    by_cases hp : p.1 = k <;> simp [dictGet, hp, ih]

/-- Python dict update law: after `d[k'] = v`, looking up `k'` yields
`v` and any other key is unchanged. -/
lemma dictGet_dictInsert (k k' : Str) (v : PyVal) (d : Env) :
    dictGet k (dictInsert k' v d) = if k = k' then some v else dictGet k d := by
  by_cases hany : d.any (fun p => p.1 == k') = true
  · rw [dictInsert, if_pos hany, dictGet_map_update]
    by_cases hk : k = k' <;> simp [hk, hany]
  · rw [dictInsert, if_neg hany, dictGet_append]
    have hkeys : ∀ p ∈ d, p.1 ≠ k' := by
      intro p hpmem hpk
      exact hany (List.any_eq_true.2 ⟨p, hpmem, by simp [hpk]⟩)
    by_cases hk : k = k'
    · subst hk
      rw [dictGet_eq_none_of_not_key hkeys]
      simp [dictGet]
    · cases h : dictGet k d with
      | none =>
        have hk2 : ¬ (k' = k) := fun hh => hk hh.symm
        simp [h, dictGet, hk, hk2]
      | some w => simp [h, if_neg hk]

lemma dictGet_foldl_insert :
    ∀ (mg : Env) (d : Env) (k : Str), (mg.map Prod.fst).Nodup →
      dictGet k (mg.foldl (fun d p => dictInsert p.1 p.2 d) d) =
        match dictGet k mg with
        | some v => some v
        | none => dictGet k d
  | [], d, k, _ => by simp [dictGet]
  | p :: mg, d, k, hnd => by
    simp only [List.map_cons, List.nodup_cons] at hnd
    simp only [List.foldl_cons]
    rw [dictGet_foldl_insert mg _ k hnd.2]
    by_cases hk : k = p.1
    · subst hk
      have hnone : dictGet p.1 mg = none := by
        apply dictGet_eq_none_of_not_key
        intro q hq hqk
        apply hnd.1
        have hmem : q.1 ∈ mg.map Prod.fst := List.mem_map_of_mem Prod.fst hq
        rwa [hqk] at hmem
      simp [dictGet, hnone, dictGet_dictInsert]
    · have hpk : ¬ (p.1 = k) := fun hh => hk hh.symm
      cases h : dictGet k mg with
      | none => simp [dictGet, h, hpk, dictGet_dictInsert, hk]
      | some w => simp [dictGet, h, hpk]

/-- Claim C8, amended: the evaluation scope is a fresh mapping holding
the declaration under the fixed alias `cls` and under its own name,
merged with the module's top-level bindings — but on a key collision
the module-level binding wins, because the dict literal unpacks
`module_globals` last. -/
theorem C8_eval_env_module_globals_take_precedence
    (name : Str) (mg : Env) (k : Str) (hnd : (mg.map Prod.fst).Nodup) :
    dictGet k (mkEvalEnv name mg) =
      match dictGet k mg with
      | some v => some v
      | none => if k = name ∨ k = clsKey then some (PyVal.classV name) else none := by
  unfold mkEvalEnv
  rw [dictGet_foldl_insert mg _ k hnd]
  cases h : dictGet k mg with
  | some w => simp
  | none =>
    simp only [dictGet_dictInsert, dictGet]
    by_cases h1 : k = name
    · simp [h1]
    · by_cases h2 : k = clsKey
      · simp [h1, h2]
      · have h2s : ¬ (clsKey = k) := fun hh => h2 hh.symm
        simp [h1, h2, h2s]

theorem C8_eval_env_module_globals_take_precedence_witness :
    (([("x".toList, PyVal.natV 7)] : Env).map Prod.fst).Nodup ∧
    dictGet clsKey (mkEvalEnv ("C".toList) [("x".toList, PyVal.natV 7)]) =
      match dictGet clsKey [("x".toList, PyVal.natV 7)] with
      | some v => some v
      | none =>
        if clsKey = ("C".toList) ∨ clsKey = clsKey then some (PyVal.classV ("C".toList))
        else none :=
  ⟨by decide,
   C8_eval_env_module_globals_take_precedence ("C".toList)
     [("x".toList, PyVal.natV 7)] clsKey (by decide)⟩

/-- Claim C8 as stated is false: with a module global named `cls`, the
scope binds `cls` to the module-level value, not to the declaration —
the declaration-local binding does not take precedence. -/
theorem C8_alias_shadowed_by_module_global_counterexample :
    dictGet clsKey (mkEvalEnv ("C".toList) [(clsKey, PyVal.natV 0)]) =
      some (PyVal.natV 0) ∧
    some (PyVal.natV 0) ≠ some (PyVal.classV ("C".toList)) :=
  ⟨by decide, by decide⟩

lemma strLe_total : ∀ s t : Str, strLe s t = true ∨ strLe t s = true
  | [], t => by left; simp [strLe]
  | _ :: _, [] => by right; simp [strLe]
  | a :: xs, b :: ys => by
    rcases Nat.lt_trichotomy a.toNat b.toNat with h | h | h
    · left; simp [strLe, h]
    · have h1 : ¬ a.toNat < b.toNat := by omega
      have h2 : ¬ b.toNat < a.toNat := by omega
      rcases strLe_total xs ys with hxy | hyx
      · left; simp [strLe, h1, h2, hxy]
      · right; simp [strLe, h1, h2, hyx]
    · right; simp [strLe, h]

lemma strLe_trans : ∀ s t u : Str,
    strLe s t = true → strLe t u = true → strLe s u = true
  | [], _, _, _, _ => by simp [strLe]
  | a :: xs, [], u, h1, _ => by simp [strLe] at h1
  | _ :: _, _ :: _, [], _, h2 => by simp [strLe] at h2
  | a :: xs, b :: ys, c :: zs, h1, h2 => by
    simp only [strLe] at h1 h2 ⊢
    split_ifs at h1 h2 ⊢ <;>
      first
        | rfl
        | omega
        | (exact strLe_trans xs ys zs h1 h2)

instance : IsTotal Member memberLe :=
  ⟨fun a b => strLe_total a.name b.name⟩

instance : IsTrans Member memberLe :=
  ⟨fun a b c => strLe_trans a.name b.name c.name⟩

lemma foldl_append_docLines (ms : List Member) :
    ∀ init : List Str,
      ms.foldl (fun acc m => acc ++ memberDocLines m) init =
        init ++ (ms.map memberDocLines).flatten := by
  induction ms with
  | nil => intro init; simp
  | cons m rest ih => intro init; simp [ih, List.append_assoc]

/-- Claim C9: a declaration's accumulated lines are its own
documentation reflowed, then each callable member's documentation
reflowed, in sorted (alphabetical, by code point) member order — the
sorted member sequence being a permutation of the declaration's
members, with no recursion below members; a declaration carrying no
documentation anywhere contributes zero lines. -/
theorem C9_registry_population_order :
    (∀ c : RawClass, docstringsOfClass c = docstringsSpec c) ∧
    (∀ c : RawClass,
      List.Sorted memberLe (getmembersOf c) ∧ (getmembersOf c).Perm c.members) ∧
    (∀ c : RawClass, c.doc = none → (∀ m ∈ c.members, m.doc = none) →
      docstringsOfClass c = []) := by
  refine ⟨?_, ?_, ?_⟩
  · intro c
    unfold docstringsOfClass docstringsSpec
    exact foldl_append_docLines _ _
  · intro c
    exact ⟨List.sorted_insertionSort memberLe c.members,
           List.perm_insertionSort memberLe c.members⟩
  · intro c hdoc hmem
    unfold docstringsOfClass
    rw [foldl_append_docLines, hdoc]
    have hall : ∀ m ∈ getmembersOf c, memberDocLines m = [] := by
      intro m hm
      have hm2 : m ∈ c.members :=
        (List.perm_insertionSort memberLe c.members).mem_iff.1 hm
      have := hmem m hm2
      unfold memberDocLines
      cases m.kind <;> simp [this, docLinesOfDoc]
    simp only [docLinesOfDoc, List.nil_append]
    rw [List.flatten_eq_nil_iff.2]
    intro l hl
    obtain ⟨m, hm, rfl⟩ := List.mem_map.1 hl
    exact hall m hm

def noDocClass : RawClass :=
  ⟨"K".toList, none, [⟨"m".toList, MemberKind.function, none⟩]⟩

theorem C9_registry_population_order_witness :
    noDocClass.doc = none ∧
    (∀ m ∈ noDocClass.members, m.doc = none) ∧
    docstringsOfClass noDocClass = [] :=
  ⟨rfl, by decide,
   C9_registry_population_order.2.2 noDocClass rfl (by decide)⟩

lemma loadExamplesLines_buildEvents (ev : Eval) (c : RunClass) :
    ∀ ds : List Str, ∀ e ∈ (loadExamplesLines ev c ds).2, isBuildEvent e = true
  | [] => by simp [loadExamplesLines]
  | d :: rest => by
    intro e he
    by_cases h : pyIn exampleMarker d = true
    · simp only [loadExamplesLines, h, if_true] at he
      cases hs : reSearchExample d with
      | none => rw [hs] at he; simp at he
      | some id =>
        rw [hs] at he
        cases hev : ev (payloadOf d) (mkEvalEnv c.name c.globals) with
        | raises => rw [hev] at he; simp at he; simp [he, isBuildEvent]
        | returns v =>
          rw [hev] at he
          simp only [List.mem_cons] at he
          rcases he with rfl | rfl | he
          · simp [isBuildEvent]
          · simp [isBuildEvent]
          · exact loadExamplesLines_buildEvents ev c rest e he
    · simp only [loadExamplesLines, h, if_false] at he
      exact loadExamplesLines_buildEvents ev c rest e he

lemma load_Classes_Examples_buildEvents (ev : Eval) :
    ∀ cs : List RunClass, ∀ e ∈ (load_Classes_Examples ev cs).2, isBuildEvent e = true
  | [] => by simp [load_Classes_Examples]
  | c :: cs => by
    intro e he
    simp only [load_Classes_Examples] at he
    cases ho : (loadExamplesLines ev c c.docstrings).1 with
    | ok =>
      rw [ho] at he
      simp only [List.mem_append] at he
      rcases he with he | he
      · exact loadExamplesLines_buildEvents ev c c.docstrings e he
      · exact load_Classes_Examples_buildEvents ev cs e he
    | fatal =>
      rw [ho] at he
      exact loadExamplesLines_buildEvents ev c c.docstrings e he
    | failed =>
      rw [ho] at he
      exact loadExamplesLines_buildEvents ev c c.docstrings e he

lemma testLineStep_testEvents (ev : Eval) (c : RunClass) (st : TestState) (d : Str) :
    ∀ e ∈ (testLineStep ev c st d).2, isTestEvent e = true := by
  intro e he
  unfold testLineStep at he
  by_cases h : (pyIn testMarker d || pyIn errorMarker d) = true
  · rw [if_pos h] at he
    by_cases hT : pyIn testMarker d = true
    · rw [if_pos hT] at he
      cases hev : ev (payloadOf d) (mkEvalEnv c.name c.globals) <;>
        (rw [hev] at he; simp at he; simp [he, isTestEvent])
    · rw [if_neg hT] at he
      cases hev : ev (payloadOf d) (mkEvalEnv c.name c.globals) <;>
        (rw [hev] at he; simp at he; simp [he, isTestEvent])
  · rw [if_neg h] at he
    simp at he

lemma testLinesFold_testEvents (ev : Eval) (c : RunClass) :
    ∀ (ds : List Str) (st : TestState),
      ∀ e ∈ (testLinesFold ev c st ds).2, isTestEvent e = true
  | [], _ => by simp [testLinesFold]
  | d :: rest, st => by
    intro e he
    simp only [testLinesFold, List.mem_append] at he
    rcases he with he | he
    · exact testLineStep_testEvents ev c st d e he
    · exact testLinesFold_testEvents ev c rest _ e he

lemma testClassesFold_testEvents (ev : Eval) :
    ∀ (cs : List RunClass) (st : TestState),
      ∀ e ∈ (testClassesFold ev st cs).2, isTestEvent e = true
  | [], _ => by simp [testClassesFold]
  | c :: cs, st => by
    intro e he
    simp only [testClassesFold, List.mem_append] at he
    rcases he with he | he
    · exact testLinesFold_testEvents ev c c.docstrings st e he
    · exact testClassesFold_testEvents ev cs _ e he

lemma loadExamplesLines_ok_stored (ev : Eval) (c : RunClass) :
    ∀ ds : List Str, (loadExamplesLines ev c ds).1 = .ok →
      ∀ d ∈ ds, pyIn exampleMarker d = true →
        ∃ id, reSearchExample d = some id ∧
          Event.exampleStored c.name id ∈ (loadExamplesLines ev c ds).2
  | [] => by simp
  | d0 :: rest => by
    intro hok d hd hmk
    by_cases h : pyIn exampleMarker d0 = true
    · cases hs : reSearchExample d0 with
      | none =>
        rw [loadExamplesLines, if_pos h, hs] at hok
        simp at hok
      | some id0 =>
        cases hev : ev (payloadOf d0) (mkEvalEnv c.name c.globals) with
        | raises =>
          rw [loadExamplesLines, if_pos h, hs, hev] at hok
          simp at hok
        | returns v =>
          have hrec : (loadExamplesLines ev c rest).1 = .ok := by
            rw [loadExamplesLines, if_pos h, hs, hev] at hok
            exact hok
          rcases List.mem_cons.1 hd with rfl | hd2
          · refine ⟨id0, hs, ?_⟩
            rw [loadExamplesLines, if_pos h, hs, hev]
            simp
          · obtain ⟨id, hid, hmem⟩ :=
              loadExamplesLines_ok_stored ev c rest hrec d hd2 hmk
            refine ⟨id, hid, ?_⟩
            rw [loadExamplesLines, if_pos h, hs, hev]
            simp only [List.mem_cons]
            exact Or.inr (Or.inr hmem)
    · rw [loadExamplesLines, if_neg h] at hok
      rcases List.mem_cons.1 hd with rfl | hd2
      · exact absurd hmk h
      · obtain ⟨id, hid, hmem⟩ := loadExamplesLines_ok_stored ev c rest hok d hd2 hmk
        refine ⟨id, hid, ?_⟩
        rw [loadExamplesLines, if_neg h]
        exact hmem

lemma load_Classes_Examples_ok_parts (ev : Eval) :
    ∀ cs : List RunClass, (load_Classes_Examples ev cs).1 = .ok →
      ∀ c ∈ cs, (loadExamplesLines ev c c.docstrings).1 = .ok ∧
        ∀ e ∈ (loadExamplesLines ev c c.docstrings).2,
          e ∈ (load_Classes_Examples ev cs).2
  | [] => by simp
  | c0 :: cs => by
    intro hok c hc
    cases ho : (loadExamplesLines ev c0 c0.docstrings).1 with
    | fatal => rw [load_Classes_Examples, ho] at hok; simp at hok
    | failed => rw [load_Classes_Examples, ho] at hok; simp at hok
    | ok =>
      have hrec : (load_Classes_Examples ev cs).1 = .ok := by
        rw [load_Classes_Examples, ho] at hok
        exact hok
      rcases List.mem_cons.1 hc with rfl | hc2
      · refine ⟨ho, fun e he => ?_⟩
        rw [load_Classes_Examples, ho]
        exact List.mem_append.2 (Or.inl he)
      · obtain ⟨h1, h2⟩ := load_Classes_Examples_ok_parts ev cs hrec c hc2
        refine ⟨h1, fun e he => ?_⟩
        rw [load_Classes_Examples, ho]
        exact List.mem_append.2 (Or.inr (h2 e he))

lemma loadExamplesLines_fatal_inv (ev : Eval) (c : RunClass) :
    ∀ ds : List Str, (loadExamplesLines ev c ds).1 = .fatal →
      ∃ d ∈ ds, pyIn exampleMarker d = true ∧ reSearchExample d = none
  | [] => by simp [loadExamplesLines]
  | d0 :: rest => by
    intro hf
    by_cases h : pyIn exampleMarker d0 = true
    · cases hs : reSearchExample d0 with
      | none => exact ⟨d0, List.mem_cons_self d0 rest, h, hs⟩
      | some id0 =>
        cases hev : ev (payloadOf d0) (mkEvalEnv c.name c.globals) with
        | raises =>
          rw [loadExamplesLines, if_pos h, hs, hev] at hf
          simp at hf
        | returns v =>
          rw [loadExamplesLines, if_pos h, hs, hev] at hf
          obtain ⟨d, hd, hp⟩ := loadExamplesLines_fatal_inv ev c rest hf
          exact ⟨d, List.mem_cons_of_mem d0 hd, hp⟩
    · rw [loadExamplesLines, if_neg h] at hf
      obtain ⟨d, hd, hp⟩ := loadExamplesLines_fatal_inv ev c rest hf
      exact ⟨d, List.mem_cons_of_mem d0 hd, hp⟩

lemma load_Classes_Examples_fatal_inv (ev : Eval) :
    ∀ cs : List RunClass, (load_Classes_Examples ev cs).1 = .fatal →
      ∃ c ∈ cs, ∃ d ∈ c.docstrings,
        pyIn exampleMarker d = true ∧ reSearchExample d = none
  | [] => by simp [load_Classes_Examples]
  | c0 :: cs => by
    intro hf
    cases ho : (loadExamplesLines ev c0 c0.docstrings).1 with
    | fatal =>
      obtain ⟨d, hd, hp⟩ := loadExamplesLines_fatal_inv ev c0 c0.docstrings ho
      exact ⟨c0, List.mem_cons_self c0 cs, d, hd, hp⟩
    | failed => rw [load_Classes_Examples, ho] at hf; simp at hf
    | ok =>
      rw [load_Classes_Examples, ho] at hf
      obtain ⟨c, hc, d, hd, hp⟩ := load_Classes_Examples_fatal_inv ev cs hf
      exact ⟨c, List.mem_cons_of_mem c0 hc, d, hd, hp⟩

lemma runDocCheck_of_fatal {ev : Eval} {cs : List RunClass}
    (h : (load_Classes_Examples ev cs).1 = .fatal) :
    runDocCheck ev cs = (.fatalExit, (load_Classes_Examples ev cs).2) := by
  simp [runDocCheck, h]

lemma runDocCheck_of_failed {ev : Eval} {cs : List RunClass}
    (h : (load_Classes_Examples ev cs).1 = .failed) :
    runDocCheck ev cs = (.verdict false, (load_Classes_Examples ev cs).2) := by
  simp [runDocCheck, h]

lemma runDocCheck_of_ok {ev : Eval} {cs : List RunClass}
    (h : (load_Classes_Examples ev cs).1 = .ok) :
    runDocCheck ev cs =
      (.verdict (run_Classes_Tests ev cs).1,
       (load_Classes_Examples ev cs).2 ++ (run_Classes_Tests ev cs).2.2) := by
  simp [runDocCheck, h]

lemma runDocCheck_fatalExit_inv {ev : Eval} {cs : List RunClass}
    (h : (runDocCheck ev cs).1 = .fatalExit) :
    (load_Classes_Examples ev cs).1 = .fatal := by
  cases ho : (load_Classes_Examples ev cs).1 with
  | fatal => rfl
  | failed => rw [runDocCheck_of_failed ho] at h; simp at h
  | ok => rw [runDocCheck_of_ok ho] at h; simp at h

/-- Claim C2: every run is two-phase.  The trace decomposes into build
events followed by test events, so no test or error line is evaluated
before the example phase has finished with every declaration; if an
example expression raises, the run's verdict is failure and the trace
holds no test/error evaluation at all; and when the build phase
succeeds, every example-tagged line of every declaration has been
evaluated and its value stored into the trace of the run. -/
theorem C2_examples_built_before_tests :
    ∀ (ev : Eval) (classes : List RunClass),
      (∃ e1 e2, (runDocCheck ev classes).2 = e1 ++ e2 ∧
        (∀ x ∈ e1, isBuildEvent x = true) ∧ (∀ x ∈ e2, isTestEvent x = true)) ∧
      ((load_Classes_Examples ev classes).1 = .failed →
        (runDocCheck ev classes).1 = .verdict false ∧
        ∀ x ∈ (runDocCheck ev classes).2, isBuildEvent x = true) ∧
      ((load_Classes_Examples ev classes).1 = .ok →
        ∀ c ∈ classes, ∀ d ∈ c.docstrings, pyIn exampleMarker d = true →
          ∃ id, reSearchExample d = some id ∧
            Event.exampleStored c.name id ∈ (runDocCheck ev classes).2) := by
  intro ev classes
  refine ⟨?_, ?_, ?_⟩
  · cases ho : (load_Classes_Examples ev classes).1 with
    | fatal =>
      refine ⟨(load_Classes_Examples ev classes).2, [], ?_, ?_, ?_⟩
      · rw [runDocCheck_of_fatal ho]; simp
      · exact load_Classes_Examples_buildEvents ev classes
      · simp
    | failed =>
      refine ⟨(load_Classes_Examples ev classes).2, [], ?_, ?_, ?_⟩
      · rw [runDocCheck_of_failed ho]; simp
      · exact load_Classes_Examples_buildEvents ev classes
      · simp
    | ok =>
      refine ⟨(load_Classes_Examples ev classes).2,
              (run_Classes_Tests ev classes).2.2, ?_, ?_, ?_⟩
      · rw [runDocCheck_of_ok ho]
      · exact load_Classes_Examples_buildEvents ev classes
      · show ∀ x ∈ (testClassesFold ev ⟨true, 0⟩ classes).2, isTestEvent x = true
        exact testClassesFold_testEvents ev classes ⟨true, 0⟩
  · intro hf
    rw [runDocCheck_of_failed hf]
    exact ⟨rfl, load_Classes_Examples_buildEvents ev classes⟩
  · intro hok c hc d hd hmk
    obtain ⟨hl, hsub⟩ := load_Classes_Examples_ok_parts ev classes hok c hc
    obtain ⟨id, hid, hmem⟩ := loadExamplesLines_ok_stored ev c c.docstrings hl d hd hmk
    refine ⟨id, hid, ?_⟩
    rw [runDocCheck_of_ok hok]
    exact List.mem_append.2 (Or.inl (hsub _ hmem))

/-- An oracle that raises exactly on the payload ` boom`. -/
def evBoom : Eval := fun p _ =>
  if p = (" boom".toList) then .raises else .returns (.natV 1)

def exFailClass : RunClass := ⟨"C".toList, [">>example1: boom".toList], []⟩

def exOkClass : RunClass := ⟨"C".toList, [">>example1: 1".toList], []⟩

theorem C2_examples_built_before_tests_witness :
    ((runDocCheck evBoom [exFailClass]).1 = .verdict false ∧
      ∀ x ∈ (runDocCheck evBoom [exFailClass]).2, isBuildEvent x = true) ∧
    (∃ id, reSearchExample (">>example1: 1".toList) = some id ∧
      Event.exampleStored ("C".toList) id ∈ (runDocCheck evBoom [exOkClass]).2) :=
  ⟨(C2_examples_built_before_tests evBoom [exFailClass]).2.1 (by decide),
   (C2_examples_built_before_tests evBoom [exOkClass]).2.2 (by decide)
     exOkClass (by decide) (">>example1: 1".toList) (by decide) (by decide)⟩

lemma loadExamplesLines_ok_append (ev : Eval) (c : RunClass) :
    ∀ pre suf : List Str, (loadExamplesLines ev c pre).1 = .ok →
      (loadExamplesLines ev c (pre ++ suf)).1 = (loadExamplesLines ev c suf).1
  | [], suf => by intro; simp
  | d :: pre, suf => by
    intro hok
    by_cases h : pyIn exampleMarker d = true
    · cases hs : reSearchExample d with
      | none => rw [loadExamplesLines, if_pos h, hs] at hok; simp at hok
      | some id =>
        cases hev : ev (payloadOf d) (mkEvalEnv c.name c.globals) with
        | raises => rw [loadExamplesLines, if_pos h, hs, hev] at hok; simp at hok
        | returns v =>
          rw [loadExamplesLines, if_pos h, hs, hev] at hok
          rw [List.cons_append, loadExamplesLines, if_pos h, hs, hev]
          exact loadExamplesLines_ok_append ev c pre suf hok
    · rw [loadExamplesLines, if_neg h] at hok
      rw [List.cons_append, loadExamplesLines, if_neg h]
      exact loadExamplesLines_ok_append ev c pre suf hok

/-- Claim C5: an example-marker line whose id does not fit the
`>>example<int>:` pattern is the one tag-parsing failure that kills the
run.  Reaching such a line makes the line loop return `fatal` at once
with nothing further processed; after any prefix of well-formed lines
the phase outcome is `fatal`; the orchestrator turns that into the
fatal process exit with no test/error line ever evaluated (it is not
recorded as a single test failure); and a fatal exit arises only from
such a line. -/
theorem C5_unparsable_example_id_is_fatal :
    (∀ (ev : Eval) (c : RunClass) (d : Str) (rest : List Str),
      pyIn exampleMarker d = true → reSearchExample d = none →
      loadExamplesLines ev c (d :: rest) = (.fatal, [])) ∧
    (∀ (ev : Eval) (c : RunClass) (pre post : List Str) (d : Str),
      (loadExamplesLines ev c pre).1 = .ok →
      pyIn exampleMarker d = true → reSearchExample d = none →
      (loadExamplesLines ev c (pre ++ d :: post)).1 = .fatal) ∧
    (∀ (ev : Eval) (classes : List RunClass),
      (load_Classes_Examples ev classes).1 = .fatal →
      (runDocCheck ev classes).1 = .fatalExit ∧
      ∀ x ∈ (runDocCheck ev classes).2, isBuildEvent x = true) ∧
    (∀ (ev : Eval) (classes : List RunClass),
      (runDocCheck ev classes).1 = .fatalExit →
      ∃ c ∈ classes, ∃ d ∈ c.docstrings,
        pyIn exampleMarker d = true ∧ reSearchExample d = none) := by
  refine ⟨?_, ?_, ?_, ?_⟩
  · intro ev c d rest h1 h2
    rw [loadExamplesLines, if_pos h1, h2]
  · intro ev c pre post d hok h1 h2
    rw [loadExamplesLines_ok_append ev c pre (d :: post) hok,
        loadExamplesLines, if_pos h1, h2]
  · intro ev classes hf
    rw [runDocCheck_of_fatal hf]
    exact ⟨rfl, load_Classes_Examples_buildEvents ev classes⟩
  · intro ev classes hf
    exact load_Classes_Examples_fatal_inv ev classes (runDocCheck_fatalExit_inv hf)

def badTagClass : RunClass :=
  ⟨"C".toList, ["see >>example usage for details".toList], []⟩

theorem C5_unparsable_example_id_is_fatal_witness :
    loadExamplesLines evBoom clsPlain
        (("see >>example usage for details".toList) :: []) = (.fatal, []) ∧
    (loadExamplesLines evBoom clsPlain
        ([] ++ ("see >>example usage for details".toList) :: [])).1 = .fatal ∧
    ((runDocCheck evBoom [badTagClass]).1 = .fatalExit ∧
      ∀ x ∈ (runDocCheck evBoom [badTagClass]).2, isBuildEvent x = true) ∧
    (∃ c ∈ [badTagClass], ∃ d ∈ c.docstrings,
      pyIn exampleMarker d = true ∧ reSearchExample d = none) :=
  ⟨C5_unparsable_example_id_is_fatal.1 evBoom clsPlain _ [] (by decide) (by decide),
   C5_unparsable_example_id_is_fatal.2.1 evBoom clsPlain [] [] _ (by decide)
     (by decide) (by decide),
   C5_unparsable_example_id_is_fatal.2.2.1 evBoom [badTagClass] (by decide),
   C5_unparsable_example_id_is_fatal.2.2.2 evBoom [badTagClass] (by decide)⟩

/-- Claim C10: tag recognition is substring containment anywhere in the
logical line, not a line-prefix test.  A line without the example
marker substring is skipped by the build loop; a line containing it
anywhere — also inside prose — that fails the full
`>>example<int>:` pattern aborts the whole process; and a line
containing the test or error marker substring anywhere is evaluated as
an assertion whose payload is the text after the line's last colon. -/
theorem C10_markers_match_anywhere_in_line :
    (∀ (ev : Eval) (c : RunClass) (d : Str) (rest : List Str),
      pyIn exampleMarker d = false →
      loadExamplesLines ev c (d :: rest) = loadExamplesLines ev c rest) ∧
    (pyIn exampleMarker ("see >>example usage for details".toList) = true ∧
      reSearchExample ("see >>example usage for details".toList) = none ∧
      ∀ (ev : Eval) (c : RunClass),
        loadExamplesLines ev c [("see >>example usage for details".toList)] =
          (.fatal, [])) ∧
    (∀ (ev : Eval) (c : RunClass) (st : TestState) (d : Str),
      (pyIn testMarker d || pyIn errorMarker d) = true →
      (testLineStep ev c st d).1.processed = st.processed + 1 ∧
      ∃ p, (testLineStep ev c st d).2 =
            [Event.testEval c.name (afterLastColon d) p] ∨
           (testLineStep ev c st d).2 =
            [Event.errorEval c.name (afterLastColon d) p]) ∧
    (pyIn testMarker ("note that >>test: usage: 1".toList) = true ∧
      payloadOf ("note that >>test: usage: 1".toList) = (" 1".toList)) := by
  refine ⟨?_, ⟨by decide, by decide, ?_⟩, ?_, by decide, by decide⟩
  · intro ev c d rest h
    rw [loadExamplesLines, if_neg (by simp [h])]
  · intro ev c
    rw [loadExamplesLines,
        if_pos (show pyIn exampleMarker _ = true by decide),
        show reSearchExample ("see >>example usage for details".toList) = none
          from by decide]
  · intro ev c st d h
    constructor
    · rw [testLineStep_processed]
      simp [h]
    · rw [← payloadOf_eq_afterLastColon]
      by_cases hT : pyIn testMarker d = true
      · cases hev : ev (payloadOf d) (mkEvalEnv c.name c.globals) with
        | returns v =>
          refine ⟨truthy v, Or.inl ?_⟩
          unfold testLineStep
          rw [if_pos h, if_pos hT, hev]
        | raises =>
          refine ⟨false, Or.inl ?_⟩
          unfold testLineStep
          rw [if_pos h, if_pos hT, hev]
      · cases hev : ev (payloadOf d) (mkEvalEnv c.name c.globals) with
        | returns v =>
          refine ⟨false, Or.inr ?_⟩
          unfold testLineStep
          rw [if_pos h, if_neg hT, hev]
        | raises =>
          refine ⟨true, Or.inr ?_⟩
          unfold testLineStep
          rw [if_pos h, if_neg hT, hev]

theorem C10_markers_match_anywhere_in_line_witness :
    loadExamplesLines evBoom clsPlain (("plain prose line".toList) :: []) =
      loadExamplesLines evBoom clsPlain [] ∧
    ((testLineStep evAllTrue clsPlain ⟨true, 0⟩
        ("note that >>test: usage: 1".toList)).1.processed = 0 + 1 ∧
      ∃ p, (testLineStep evAllTrue clsPlain ⟨true, 0⟩
              ("note that >>test: usage: 1".toList)).2 =
            [Event.testEval clsPlain.name
              (afterLastColon ("note that >>test: usage: 1".toList)) p] ∨
           (testLineStep evAllTrue clsPlain ⟨true, 0⟩
              ("note that >>test: usage: 1".toList)).2 =
            [Event.errorEval clsPlain.name
              (afterLastColon ("note that >>test: usage: 1".toList)) p]) :=
  ⟨C10_markers_match_anywhere_in_line.1 evBoom clsPlain _ [] (by decide),
   C10_markers_match_anywhere_in_line.2.2.1 evAllTrue clsPlain ⟨true, 0⟩
     ("note that >>test: usage: 1".toList) (by decide)⟩

/-- The merge condition read off a counter state. -/
def anyOpenD (d : Depths) : Bool :=
  decide (0 < d.paren) || decide (0 < d.bracket) || decide (0 < d.brace)

lemma mergeStep_snd (d : Depths) (c : Char) :
    (mergeStep d c).2 = if c = '\n' ∧ anyOpenD d = true then ' ' else c := by
  unfold mergeStep anyOpenD
  split_ifs <;> simp_all

lemma mergeStep_fst_paren (d : Depths) (c : Char) :
    ((mergeStep d c).1).paren =
      if c = '(' then d.paren + 1 else if c = ')' then d.paren - 1 else d.paren := by
  unfold mergeStep
  split_ifs <;> simp_all

lemma mergeStep_fst_bracket (d : Depths) (c : Char) :
    ((mergeStep d c).1).bracket =
      if c = '[' then d.bracket + 1 else if c = ']' then d.bracket - 1 else d.bracket := by
  unfold mergeStep
  split_ifs <;> simp_all

lemma mergeStep_fst_brace (d : Depths) (c : Char) :
    ((mergeStep d c).1).brace =
      if c = '{' then d.brace + 1 else if c = '}' then d.brace - 1 else d.brace := by
  unfold mergeStep
  split_ifs <;> simp_all

lemma stepFold_cons (d : Depths) (c : Char) (s : Str) :
    stepFold d (c :: s) = stepFold ((mergeStep d c).1) s := by
  simp [stepFold]

lemma stepFold_append (d : Depths) (s t : Str) :
    stepFold d (s ++ t) = stepFold (stepFold d s) t := by
  simp [stepFold, List.foldl_append]

lemma stepFold_paren (s : Str) : ∀ d : Depths,
    (stepFold d s).paren =
      s.foldl (fun n c => if c = '(' then n + 1 else if c = ')' then n - 1 else n) d.paren := by
  induction s with
  | nil => intro d; rfl
  | cons c rest ih =>
    intro d
    rw [stepFold_cons, List.foldl_cons, ih, mergeStep_fst_paren]

lemma stepFold_bracket (s : Str) : ∀ d : Depths,
    (stepFold d s).bracket =
      s.foldl (fun n c => if c = '[' then n + 1 else if c = ']' then n - 1 else n) d.bracket := by
  induction s with
  | nil => intro d; rfl
  | cons c rest ih =>
    intro d
    rw [stepFold_cons, List.foldl_cons, ih, mergeStep_fst_bracket]

lemma stepFold_brace (s : Str) : ∀ d : Depths,
    (stepFold d s).brace =
      s.foldl (fun n c => if c = '{' then n + 1 else if c = '}' then n - 1 else n) d.brace := by
  induction s with
  | nil => intro d; rfl
  | cons c rest ih =>
    intro d
    rw [stepFold_cons, List.foldl_cons, ih, mergeStep_fst_brace]

/-- The state reached from the start state is exactly the triple of
clamped per-pair counters of the prefix. -/
lemma anyOpenD_stepFold (s : Str) :
    anyOpenD (stepFold ⟨0, 0, 0⟩ s) = anyOpen s := by
  unfold anyOpenD anyOpen clampCount
  rw [stepFold_paren, stepFold_bracket, stepFold_brace]

lemma mergeChars_length (s : Str) : ∀ d : Depths, (mergeChars d s).length = s.length := by
  induction s with
  | nil => intro d; rfl
  | cons c rest ih => intro d; simp [mergeChars, ih]

lemma mergeChars_getElem (s : Str) : ∀ (d : Depths) (i : Nat) (c : Char),
    s[i]? = some c →
    (mergeChars d s)[i]? =
      some (if c = '\n' ∧ anyOpenD (stepFold d (s.take i)) = true then ' ' else c) := by
  induction s with
  | nil => intro d i c h; simp at h
  | cons x rest ih =>
    intro d i c h
    cases i with
    | zero =>
      simp only [List.getElem?_cons_zero, Option.some.injEq] at h
      subst h
      simp [mergeChars, mergeStep_snd, stepFold]
    | succ i =>
      simp only [List.getElem?_cons_succ] at h
      have := ih (mergeStep d x).1 i c h
      simp only [mergeChars, List.getElem?_cons_succ, this, List.take_succ_cons,
        stepFold_cons]

/-- Spec-side merge pass (from the spec's words): position by position,
a newline whose prefix leaves at least one clamped counter above zero
becomes a space; every other character is kept. -/
def lineReflowMergeSpec (text : Str) : Str :=
  (List.range text.length).map (fun i =>
    match text[i]? with
    | some c => if c = '\n' ∧ anyOpen (text.take i) = true then ' ' else c
    | none => ' ')

/-- The source's stateful merge walk equals the spec-side positional
description. -/
lemma mergeChars_eq_mergeSpec (text : Str) :
    mergeChars ⟨0, 0, 0⟩ text = lineReflowMergeSpec text := by
  apply List.ext_getElem?
  intro i
  unfold lineReflowMergeSpec
  by_cases hi : i < text.length
  · have hc : text[i]? = some text[i] := List.getElem?_eq_getElem hi
    rw [mergeChars_getElem text ⟨0, 0, 0⟩ i _ hc, List.getElem?_map,
        List.getElem?_range hi]
    simp [hc, anyOpenD_stepFold]
  · have h1 : text.length ≤ i := Nat.le_of_not_lt hi
    have e1 : (mergeChars ⟨0, 0, 0⟩ text)[i]? = none := by
      rw [List.getElem?_eq_none_iff, mergeChars_length]
      exact h1
    have e2 : ((List.range text.length).map (fun i =>
        match text[i]? with
        | some c => if c = '\n' ∧ anyOpen (text.take i) = true then ' ' else c
        | none => ' '))[i]? = none := by
      rw [List.getElem?_eq_none_iff]
      simpa using h1
    rw [e1, e2]

/-- Spec-side reflow pipeline (from the spec's words): merge, split on
line breaks, collapse whitespace, drop empty lines. -/
def lineReflowSpec (text : Str) : List Str :=
  ((pySplitlines (lineReflowMergeSpec text)).map collapseWs).filter
    (fun l => decide (l ≠ []))

def isBracketChar (c : Char) : Bool :=
  c = '(' || c = ')' || c = '[' || c = ']' || c = '{' || c = '}'

lemma mergeStep_nonbracket (d : Depths) (c : Char)
    (h : isBracketChar c = false) : (mergeStep d c).1 = d := by
  unfold mergeStep
  split_ifs <;> simp_all [isBracketChar]

lemma mergeChars_append (s : Str) : ∀ (d : Depths) (t : Str),
    mergeChars d (s ++ t) = mergeChars d s ++ mergeChars (stepFold d s) t := by
  induction s with
  | nil => intro d t; simp [mergeChars, stepFold]
  | cons c rest ih =>
    intro d t
    simp [mergeChars, ih, stepFold_cons]

lemma mergeChars_open_paren (s : Str) : ∀ d : Depths, 0 < d.paren →
    (∀ c ∈ s, isBracketChar c = false) →
    mergeChars d s = s.map (fun c => if c = '\n' then ' ' else c) ∧
    stepFold d s = d := by
  induction s with
  | nil => intro d _ _; exact ⟨rfl, rfl⟩
  | cons c rest ih =>
    intro d hd hmem
    have hc : isBracketChar c = false := (hmem c (List.mem_cons_self c rest))
    have hrest : ∀ x ∈ rest, isBracketChar x = false :=
      fun x hx => hmem x (List.mem_cons_of_mem c hx)
    have hfst : (mergeStep d c).1 = d := mergeStep_nonbracket d c hc
    have hopen : anyOpenD d = true := by
      unfold anyOpenD
      simp [hd]
    obtain ⟨ih1, ih2⟩ := ih d hd hrest
    constructor
    · simp only [mergeChars, hfst, ih1, mergeStep_snd, hopen, List.map_cons]
      by_cases hnl : c = '\n' <;> simp [hnl]
    · rw [stepFold_cons, hfst, ih2]

lemma splitlinesCore_nobreak_all (s : Str) :
    (∀ c ∈ s, isLineBreak c = false) → ∀ acc : Str, (acc ≠ [] ∨ s ≠ []) →
      splitlinesCore false acc s = [acc.reverse ++ s] := by
  induction s with
  | nil =>
    intro _ acc hne
    rcases hne with h | h
    · simp [splitlinesCore, h]
    · exact absurd rfl h
  | cons c rest ih =>
    intro hmem acc _
    have hc : isLineBreak c = false := hmem c (List.mem_cons_self c rest)
    have hrest : ∀ x ∈ rest, isLineBreak x = false :=
      fun x hx => hmem x (List.mem_cons_of_mem c hx)
    have step : splitlinesCore false acc (c :: rest) =
        splitlinesCore false (c :: acc) rest := by
      simp [splitlinesCore, hc]
    rw [step, ih hrest (c :: acc) (Or.inl (by simp))]
    simp

lemma splitlinesCore_prepend_nobreak (w : Str) :
    (∀ c ∈ w, isLineBreak c = false) → ∀ (acc : Str) (s : Str),
      splitlinesCore false acc (w ++ s) =
        splitlinesCore false (w.reverse ++ acc) s := by
  induction w with
  | nil => intro _ acc s; simp
  | cons c rest ih =>
    intro hmem acc s
    have hc : isLineBreak c = false := hmem c (List.mem_cons_self c rest)
    have hrest : ∀ x ∈ rest, isLineBreak x = false :=
      fun x hx => hmem x (List.mem_cons_of_mem c hx)
    have step : splitlinesCore false acc (c :: (rest ++ s)) =
        splitlinesCore false (c :: acc) (rest ++ s) := by
      simp [splitlinesCore, hc]
    simp only [List.cons_append, step, ih hrest (c :: acc) s,
      List.reverse_cons, List.append_assoc, List.cons_append, List.nil_append]

lemma splitlinesCore_newline (acc rest : Str) :
    splitlinesCore false acc ('\n' :: rest) =
      acc.reverse :: splitlinesCore false [] rest := by
  simp [splitlinesCore, isLineBreak]

lemma pySplitWsCore_all_ne_nil (s : Str) : ∀ cur : Str,
    ∀ w ∈ pySplitWsCore cur s, w ≠ [] := by
  induction s with
  | nil =>
    intro cur w hw
    by_cases hc : cur = []
    · rw [pySplitWsCore, if_pos hc] at hw
      simp at hw
    · rw [pySplitWsCore, if_neg hc] at hw
      simp only [List.mem_singleton] at hw
      subst hw
      simpa using hc
  | cons c rest ih =>
    intro cur w hw
    by_cases hc : pyIsSpace c = true
    · by_cases hcur : cur = []
      · rw [pySplitWsCore, if_pos hc, if_pos hcur] at hw
        exact ih [] w hw
      · rw [pySplitWsCore, if_pos hc, if_neg hcur] at hw
        rcases List.mem_cons.1 hw with rfl | hw2
        · simpa using hcur
        · exact ih [] w hw2
    · rw [pySplitWsCore, if_neg hc] at hw
      exact ih (c :: cur) w hw

lemma pySplitWsCore_ne_nil_of_cur (s : Str) : ∀ cur : Str, cur ≠ [] →
    pySplitWsCore cur s ≠ [] := by
  induction s with
  | nil => intro cur hcur; simp [pySplitWsCore, hcur]
  | cons c rest ih =>
    intro cur hcur
    by_cases hc : pyIsSpace c = true
    · rw [pySplitWsCore, if_pos hc, if_neg hcur]
      simp
    · rw [pySplitWsCore, if_neg hc]
      exact ih (c :: cur) (by simp)

lemma collapseWs_ne_nil {s : Str} {c : Char} (hc : c ∈ s)
    (hcs : pyIsSpace c = false) : collapseWs s ≠ [] := by
  have hne : pySplitWs s ≠ [] := by
    unfold pySplitWs
    induction s with
    | nil => simp at hc
    | cons x rest ih =>
      by_cases hx : pyIsSpace x = true
      · have hcx : c ≠ x := fun h => by rw [h] at hcs; rw [hcs] at hx; cases hx
        have hcr : c ∈ rest := by
          rcases List.mem_cons.1 hc with rfl | h
          · exact absurd rfl hcx
          · exact h
        rw [pySplitWsCore, if_pos hx, if_pos rfl]
        exact ih hcr
      · rw [pySplitWsCore, if_neg hx]
        exact pySplitWsCore_ne_nil_of_cur rest [x] (by simp)
  unfold collapseWs
  cases hws : pySplitWs s with
  | nil => exact absurd hws hne
  | cons w ws =>
    have hw : w ≠ [] := by
      apply pySplitWsCore_all_ne_nil s [] w
      show w ∈ pySplitWs s
      rw [hws]
      exact List.mem_cons_self w ws
    cases ws with
    | nil => simpa [joinSpace] using hw
    | cons w2 ws2 =>
      simp only [joinSpace]
      intro hcontra
      rcases List.append_eq_nil.1 hcontra with ⟨h1, h2⟩
      cases h2

/-- Claim C3: the reflow equals the spec pipeline — merge (a newline
becomes one space exactly when one of the three clamped counters of its
prefix is above zero), length-preserving, bracket characters untouched
— then split on line breaks, collapse whitespace and drop empties; and
a parenthesised expression spanning two raw lines is emitted as exactly
one logical line. -/
theorem C3_reflow_merges_bracketed_newlines :
    (∀ text : Str,
      safe_Splitlines_Preserving_Parentheses text = lineReflowSpec text ∧
      (mergeChars ⟨0, 0, 0⟩ text).length = text.length ∧
      (∀ (i : Nat) (c : Char), text[i]? = some c →
        (mergeChars ⟨0, 0, 0⟩ text)[i]? =
          some (if c = '\n' ∧ anyOpen (text.take i) = true then ' ' else c)) ∧
      (∀ (i : Nat) (c : Char), text[i]? = some c → isBracketChar c = true →
        (mergeChars ⟨0, 0, 0⟩ text)[i]? = some c)) ∧
    (∀ a b : Str,
      (∀ c ∈ a, isBracketChar c = false ∧ isLineBreak c = false) →
      (∀ c ∈ b, isBracketChar c = false ∧ isLineBreak c = false) →
      pySplitlines ('(' :: (a ++ '\n' :: b) ++ [')']) =
        [('(' :: a), b ++ [')']] ∧
      safe_Splitlines_Preserving_Parentheses ('(' :: (a ++ '\n' :: b) ++ [')']) =
        [collapseWs ('(' :: (a ++ ' ' :: b) ++ [')'])]) := by
  constructor
  · intro text
    refine ⟨?_, mergeChars_length text ⟨0, 0, 0⟩, ?_, ?_⟩
    · unfold safe_Splitlines_Preserving_Parentheses lineReflowSpec
      rw [mergeChars_eq_mergeSpec]
    · intro i c h
      rw [mergeChars_getElem text ⟨0, 0, 0⟩ i c h, anyOpenD_stepFold]
    · intro i c h hb
      rw [mergeChars_getElem text ⟨0, 0, 0⟩ i c h]
      have hni : ¬(c = '\n' ∧ anyOpenD (stepFold ⟨0, 0, 0⟩ (text.take i)) = true) := by
        rintro ⟨rfl, _⟩
        simp [isBracketChar] at hb
      rw [if_neg hni]
  · intro a b hA hB
    have hAb : ∀ c ∈ a, isBracketChar c = false := fun c hc => (hA c hc).1
    have hAl : ∀ c ∈ a, isLineBreak c = false := fun c hc => (hA c hc).2
    have hBb : ∀ c ∈ b, isBracketChar c = false := fun c hc => (hB c hc).1
    have hBl : ∀ c ∈ b, isLineBreak c = false := fun c hc => (hB c hc).2
    have hmid : ∀ c ∈ (a ++ '\n' :: b), isBracketChar c = false := by
      intro c hc
      rcases List.mem_append.1 hc with h | h
      · exact hAb c h
      · rcases List.mem_cons.1 h with rfl | h2
        · decide
        · exact hBb c h2
    obtain ⟨hmap0, hfold⟩ :=
      mergeChars_open_paren (a ++ '\n' :: b) ⟨1, 0, 0⟩ (by decide) hmid
    have hmap : (a ++ '\n' :: b).map (fun c => if c = '\n' then ' ' else c) =
        a ++ ' ' :: b := by
      rw [List.map_append, List.map_cons]
      have ea : a.map (fun c => if c = '\n' then ' ' else c) = a := by
        have h1 : ∀ c ∈ a, (fun c => if c = '\n' then ' ' else c) c = id c := by
          intro c hc
          have : c ≠ '\n' := fun hcc => by
            have := hAl c hc
            rw [hcc] at this
            simp [isLineBreak] at this
          simp [this]
        rw [List.map_congr_left h1, List.map_id]
      have eb : b.map (fun c => if c = '\n' then ' ' else c) = b := by
        have h1 : ∀ c ∈ b, (fun c => if c = '\n' then ' ' else c) c = id c := by
          intro c hc
          have : c ≠ '\n' := fun hcc => by
            have := hBl c hc
            rw [hcc] at this
            simp [isLineBreak] at this
          simp [this]
        rw [List.map_congr_left h1, List.map_id]
      rw [ea, eb]
      simp
    have hmerged : mergeChars ⟨0, 0, 0⟩ ('(' :: (a ++ '\n' :: b) ++ [')']) =
        '(' :: (a ++ ' ' :: b) ++ [')'] := by
      show mergeChars ⟨0, 0, 0⟩ (['('] ++ ((a ++ '\n' :: b) ++ [')'])) = _
      rw [mergeChars_append]
      have e0 : mergeChars ⟨0, 0, 0⟩ ['('] = ['('] := by decide
      have e1 : stepFold ⟨0, 0, 0⟩ ['('] = ⟨1, 0, 0⟩ := by decide
      rw [e0, e1, mergeChars_append, hmap0, hfold, hmap]
      have e2 : mergeChars ⟨1, 0, 0⟩ [')'] = [')'] := by decide
      rw [e2]
      simp
    have hw1 : ∀ c ∈ ('(' :: a), isLineBreak c = false := by
      intro c hc
      rcases List.mem_cons.1 hc with rfl | h2
      · decide
      · exact hAl c h2
    have hw2 : ∀ c ∈ (b ++ [')']), isLineBreak c = false := by
      intro c hc
      rcases List.mem_append.1 hc with h | h
      · exact hBl c h
      · rcases List.mem_singleton.1 h with rfl
        decide
    have hsplit : pySplitlines ('(' :: (a ++ '\n' :: b) ++ [')']) =
        [('(' :: a), b ++ [')']] := by
      show splitlinesCore false [] _ = _
      have hshape : '(' :: (a ++ '\n' :: b) ++ [')'] =
          ('(' :: a) ++ ('\n' :: (b ++ [')'])) := by simp
      rw [hshape, splitlinesCore_prepend_nobreak ('(' :: a) hw1 [],
          splitlinesCore_newline,
          splitlinesCore_nobreak_all (b ++ [')']) hw2 [] (Or.inr (by simp))]
      simp
    refine ⟨hsplit, ?_⟩
    unfold safe_Splitlines_Preserving_Parentheses
    rw [hmerged]
    have hwm : ∀ c ∈ ('(' :: (a ++ ' ' :: b) ++ [')']), isLineBreak c = false := by
      intro c hc
      rcases List.mem_cons.1 hc with rfl | hc2
      · decide
      · rcases List.mem_append.1 hc2 with h | h
        · rcases List.mem_append.1 h with h3 | h3
          · exact hAl c h3
          · rcases List.mem_cons.1 h3 with rfl | h4
            · decide
            · exact hBl c h4
        · rcases List.mem_singleton.1 h with rfl
          decide
    have hone : pySplitlines ('(' :: (a ++ ' ' :: b) ++ [')']) =
        [('(' :: (a ++ ' ' :: b) ++ [')'])] := by
      show splitlinesCore false [] _ = _
      rw [splitlinesCore_nobreak_all _ hwm [] (Or.inr (by simp))]
      simp
    rw [hone]
    have hnn : collapseWs ('(' :: (a ++ ' ' :: (b ++ [')']))) ≠ [] :=
      collapseWs_ne_nil (List.mem_cons_self _ _) (by decide)
    simp [List.filter, hnn]

theorem C3_reflow_merges_bracketed_newlines_witness :
    (∀ c ∈ ("1,".toList), isBracketChar c = false ∧ isLineBreak c = false) ∧
    (∀ c ∈ (" 2".toList), isBracketChar c = false ∧ isLineBreak c = false) ∧
    pySplitlines ('(' :: (("1,".toList) ++ '\n' :: (" 2".toList)) ++ [')']) =
      [('(' :: ("1,".toList)), (" 2".toList) ++ [')']] ∧
    safe_Splitlines_Preserving_Parentheses
        ('(' :: (("1,".toList) ++ '\n' :: (" 2".toList)) ++ [')']) =
      [collapseWs ('(' :: (("1,".toList) ++ ' ' :: (" 2".toList)) ++ [')'])] ∧
    (mergeChars ⟨0, 0, 0⟩ ("(x\n)".toList))[2]? =
      some (if '\n' = '\n' ∧ anyOpen (("(x\n)".toList).take 2) = true
            then ' ' else '\n') ∧
    (mergeChars ⟨0, 0, 0⟩ ("(x\n)".toList))[0]? = some '(' :=
  ⟨by decide, by decide,
   (C3_reflow_merges_bracketed_newlines.2 ("1,".toList) (" 2".toList)
      (by decide) (by decide)).1,
   (C3_reflow_merges_bracketed_newlines.2 ("1,".toList) (" 2".toList)
      (by decide) (by decide)).2,
   (C3_reflow_merges_bracketed_newlines.1 ("(x\n)".toList)).2.2.1 2 '\n' (by decide),
   (C3_reflow_merges_bracketed_newlines.1 ("(x\n)".toList)).2.2.2 0 '(' (by decide)
     (by decide)⟩
